import Mathlib

/-!
Verification development for the implicit staggered-grid immersed-boundary
hierarchy integrator (`IBImplicitStaggeredHierarchyIntegrator`).  The member
functions of the nested `NoOpStaggeredStokesSolver` class are embedded
directly from their inline definitions in the header.  The Newton-Krylov
driver, the timestep coordinator, the Lagrangian Schur action and the
Jacobian action are declared in the header but implemented elsewhere, so
they are modelled from the specification (sections 4.5, 4.6, 4.4, 4.2 and 7).
-/

namespace IBAMR

/-- Composite vectors (the concatenation of Eulerian and Lagrangian
unknowns), Eulerian fields and Lagrangian marker data are modelled as lists
of rationals. -/
abbrev Vec := List ℚ

/-- Componentwise sum of two vectors. -/
def vadd (x y : Vec) : Vec := List.zipWith (fun a b => a + b) x y

/-- Componentwise difference of two vectors. -/
def vsub (x y : Vec) : Vec := List.zipWith (fun a b => a - b) x y

/-- Scaling of a vector by a scalar. -/
def vscale (c : ℚ) (x : Vec) : Vec := x.map (fun a => c * a)

/-- The vector norm used by the convergence tests (the l1 norm). -/
def norm1 (x : Vec) : ℚ := (x.map (fun a => |a|)).sum

/-- Modelled from the spec: the solver configuration consumed at setup —
absolute and relative residual tolerances, the nonlinear-iteration bound,
the bound on damped step retries, and the divergence safeguard ratio. -/
structure Config where
  atol : ℚ
  rtol : ℚ
  maxNonlinearIts : ℕ
  maxDampingRetries : ℕ
  safeguard : ℚ

/-- Modelled from the spec: the operator suite used by one solve.
`residual` is the CompositeResidualEvaluator (`compositeIBFunction`); it
returns `none` exactly when a non-finite sampled value is detected during
the evaluation.  `linearSolve` is the bounded Krylov solve of the linearized
Newton step (driven by the Jacobian action and the block preconditioner);
its boolean argument marks the restarted retry, and it returns `none` when
the solve stagnates within its linear-iteration budget. -/
structure Ops where
  residual : Vec → Option Vec
  linearSolve : Bool → Vec → Vec → Option Vec

/-- Modelled from the spec: the terminal states of the NonlinearCoupledSolver
state machine, including the surfaced failure conditions. -/
inductive SolveOutcome where
  | Converged (x : Vec)
  | Diverged
  | MaxIterationsReached
  | LinearSolveFailure
  | NumericalInstability
deriving DecidableEq, Repr

/-- Modelled from the spec: the convergence test of the `Evaluating` state —
the residual norm is below the absolute or the relative tolerance. -/
def convergedCheck (cfg : Config) (rnorm0 rnorm : ℚ) : Bool :=
  decide (rnorm ≤ cfg.atol ∨ rnorm ≤ cfg.rtol * rnorm0)

/-- Modelled from the spec: the result of the damped update phase
(`LinearSolving → Updating`). -/
inductive UpdateResult where
  | ok (x r : Vec)
  | diverged
  | instab
deriving DecidableEq, Repr

/-- Modelled from the spec: apply a possibly damped step to the iterate.
The full step is tried first; while the new residual norm exceeds the
previous norm by more than the safeguard ratio the step is halved, a bounded
number of times, after which the update reports divergence.  A non-finite
value detected during residual evaluation aborts immediately, regardless of
the remaining retry budget. -/
def dampedUpdate (ops : Ops) (sg : ℚ) (x : Vec) (rnormPrev : ℚ) :
    Vec → ℕ → UpdateResult
  | s, 0 =>
    match ops.residual (vadd x s) with
    | none => .instab
    | some r =>
      if sg * rnormPrev < norm1 r then .diverged
      else .ok (vadd x s) r
  | s, Nat.succ k =>
    match ops.residual (vadd x s) with
    | none => .instab
    | some r =>
      if sg * rnormPrev < norm1 r then
        dampedUpdate ops sg x rnormPrev (vscale (1 / 2) s) k
      else .ok (vadd x s) r

/-- Modelled from the spec: the Krylov solve is retried once with a solver
restart before a linear-solve failure is surfaced. -/
def linearSolveWithRetry (ops : Ops) (x r : Vec) : Option Vec :=
  match ops.linearSolve false x r with
  | some s => some s
  | none => ops.linearSolve true x r

/-- Modelled from the spec: the Newton loop of NonlinearCoupledSolver.
`rnorm0` is the initial residual norm, `x` the current iterate with residual
`r`, and the last argument the remaining nonlinear-iteration budget.
Returns the terminal state together with the number of nonlinear iterations
executed. -/
def newtonLoop (cfg : Config) (ops : Ops) (rnorm0 : ℚ) :
    Vec → Vec → ℕ → SolveOutcome × ℕ
  | x, r, 0 =>
    if convergedCheck cfg rnorm0 (norm1 r) then (.Converged x, 0)
    else (.MaxIterationsReached, 0)
  | x, r, Nat.succ fuel =>
    if convergedCheck cfg rnorm0 (norm1 r) then (.Converged x, 0)
    else
      match linearSolveWithRetry ops x r with
      | none => (.LinearSolveFailure, 1)
      | some s =>
        match dampedUpdate ops cfg.safeguard x (norm1 r) s cfg.maxDampingRetries with
        | .instab => (.NumericalInstability, 1)
        | .diverged => (.Diverged, 1)
        | .ok x1 r1 =>
          ((newtonLoop cfg ops rnorm0 x1 r1 fuel).1,
           (newtonLoop cfg ops rnorm0 x1 r1 fuel).2 + 1)

/-- Modelled from the spec: run one nonlinear coupled solve from the initial
iterate `x0`, returning the terminal state and the number of executed
nonlinear iterations. -/
def nonlinearSolveCore (cfg : Config) (ops : Ops) (x0 : Vec) :
    SolveOutcome × ℕ :=
  match ops.residual x0 with
  | none => (.NumericalInstability, 0)
  | some r0 => newtonLoop cfg ops (norm1 r0) x0 r0 cfg.maxNonlinearIts

/-- The terminal state of one nonlinear coupled solve. -/
def nonlinearSolve (cfg : Config) (ops : Ops) (x0 : Vec) : SolveOutcome :=
  (nonlinearSolveCore cfg ops x0).1

/-- Modelled from the spec: the state owned across integrateHierarchy
calls — the Eulerian field samples, the Lagrangian marker data, and the
simulation time. -/
structure OwnedState where
  eulerian : Vec
  lagrangian : Vec
  time : ℚ
deriving DecidableEq, Repr

/-- Modelled from the spec: seed the composite vector from the owned
Eulerian and Lagrangian states. -/
def seedComposite (st : OwnedState) : Vec := st.eulerian ++ st.lagrangian

/-- Modelled from the spec: `integrateHierarchy (current_time, new_time,
cycle_num)` seeds the composite vector from the owned states, runs the
nonlinear coupled solve, and on `Converged` commits the result back into the
owned states and advances the simulation time; on any failure terminal state
it leaves the owned state untouched and reports failure.  `opsOf` builds the
operator suite for the given current and new times. -/
def integrateHierarchy (cfg : Config) (opsOf : ℚ → ℚ → Ops) (st : OwnedState)
    (current_time new_time : ℚ) (cycle_num : ℕ) : OwnedState × Bool :=
  match nonlinearSolve cfg (opsOf current_time new_time) (seedComposite st) with
  | .Converged x =>
    ({ eulerian := x.take st.eulerian.length,
       lagrangian := x.drop st.eulerian.length,
       time := new_time }, true)
  | _ => (st, false)

/-- Modelled from the spec: the residual of the coupled equations evaluated
implicitly at the trial state — the change from the previous-timestep state
minus the step length times the coupled right-hand side `G` evaluated at the
trial state.  For a zero-length step the residual vanishes at the
previous-timestep state. -/
def stepOps (xold : Vec) (G : ℚ → ℚ → Vec → Vec)
    (ls : Bool → Vec → Vec → Option Vec) (current_time new_time : ℚ) : Ops where
  residual := fun x =>
    some (vsub (vsub x xold) (vscale (new_time - current_time) (G current_time new_time x)))
  linearSolve := ls

/-- Modelled from the spec: the action of the Lagrangian Schur complement
(`lagrangianSchurApply`) on a structure-restricted vector — the composition
of the spreading operator, one approximate fluid solve and the interpolation
operator — except that for a degenerate structure with zero Lagrangian
markers the action is the identity. -/
def lagrangianSchurApply (num_markers : ℕ) (spread fluidSolve interp : Vec → Vec)
    (x : Vec) : Vec :=
  if num_markers = 0 then x else interp (fluidSolve (spread x))

/-- Modelled from the spec: the Krylov-loop state holding the outer
linearization point `d_X_current`. -/
structure KrylovState where
  d_X_current : Vec
deriving DecidableEq, Repr

/-- Modelled from the spec: the matrix-free Jacobian action
(`compositeIBJacobianApply`) — the finite-difference directional derivative
of the residual at the stored linearization point along the direction `v` —
returning the product together with the (unchanged) Krylov-loop state. -/
def compositeIBJacobianApply (F : Vec → Vec) (eps : ℚ) (st : KrylovState)
    (v : Vec) : Vec × KrylovState :=
  (vscale (1 / eps) (vsub (F (vadd st.d_X_current (vscale eps v))) (F st.d_X_current)), st)

/-- Repeated Jacobian-action applications inside one Krylov loop, threading
the Krylov-loop state through the whole sequence of directions. -/
def jacobianApplySeq (F : Vec → Vec) (eps : ℚ) (st : KrylovState) :
    List Vec → KrylovState
  | [] => st
  | v :: vs => jacobianApplySeq F eps (compositeIBJacobianApply F eps st v).2 vs

/-- The settings stored by one of the operator or preconditioner objects
maintained by NoOpStaggeredStokesSolver (the Stokes operator, the FAC
operator and the FAC preconditioner) and by the StaggeredStokesSolver base
class: the velocity Poisson specifications and the physical
boundary-condition coefficients most recently forwarded to it. -/
structure SubSolverState (α β : Type) where
  velocityPoissonSpecs : Option α
  physicalBcCoefs : Option (List β × β)
deriving DecidableEq, Repr

/-- The NoOpStaggeredStokesSolver: the base-class settings together with the
operators and solvers maintained by the class (`d_stokes_op`, `d_fac_op`,
`d_fac_pc`). -/
structure NoOpStaggeredStokesSolver (α β : Type) where
  base : SubSolverState α β
  d_stokes_op : SubSolverState α β
  d_fac_op : SubSolverState α β
  d_fac_pc : SubSolverState α β
deriving DecidableEq, Repr

namespace NoOpStaggeredStokesSolver

/-- Embedded from the header: `setVelocityPoissonSpecifications` forwards
the velocity Poisson specifications to the base class, the Stokes operator,
the FAC preconditioner and the FAC operator. -/
def setVelocityPoissonSpecifications {α β : Type}
    (s : NoOpStaggeredStokesSolver α β) (U_problem_coefs : α) :
    NoOpStaggeredStokesSolver α β :=
  { base := { s.base with velocityPoissonSpecs := some U_problem_coefs },
    d_stokes_op := { s.d_stokes_op with velocityPoissonSpecs := some U_problem_coefs },
    d_fac_op := { s.d_fac_op with velocityPoissonSpecs := some U_problem_coefs },
    d_fac_pc := { s.d_fac_pc with velocityPoissonSpecs := some U_problem_coefs } }

/-- Embedded from the header: `setPhysicalBcCoefs` forwards the
boundary-condition coefficients to the base class and the Stokes operator
only; projection boundary conditions for the FAC preconditioner and FAC
operator are set separately. -/
def setPhysicalBcCoefs {α β : Type} (s : NoOpStaggeredStokesSolver α β)
    (U_bc_coefs : List β) (P_bc_coef : β) : NoOpStaggeredStokesSolver α β :=
  { s with
    base := { s.base with physicalBcCoefs := some (U_bc_coefs, P_bc_coef) },
    d_stokes_op := { s.d_stokes_op with physicalBcCoefs := some (U_bc_coefs, P_bc_coef) } }

/-- Embedded from the header: `solveSystem` is intentionally left blank and
returns false; the solver state and both vectors are unchanged. -/
def solveSystem {α β : Type} (s : NoOpStaggeredStokesSolver α β) (x b : Vec) :
    Bool × NoOpStaggeredStokesSolver α β × Vec × Vec :=
  (false, s, x, b)

end NoOpStaggeredStokesSolver

/-! ## Concrete instances used by witnesses and counterexamples -/

/-- A valid concrete configuration. -/
def cfgA : Config :=
  { atol := 1, rtol := 0, maxNonlinearIts := 5, maxDampingRetries := 3, safeguard := 2 }

/-- A configuration whose nonlinear-iteration bound is 0. -/
def cfgZero : Config :=
  { atol := 1 / 2, rtol := 0, maxNonlinearIts := 0, maxDampingRetries := 3, safeguard := 2 }

/-- Operators whose residual evaluation always detects a non-finite value. -/
def opsFail : Ops := { residual := fun _ => none, linearSolve := fun _ _ _ => none }

/-- Operators with the constant residual [1/2]. -/
def opsConst : Ops := { residual := fun _ => some [1 / 2], linearSolve := fun _ _ _ => none }

/-- Operators with the constant residual [1]. -/
def opsOne : Ops := { residual := fun _ => some [1], linearSolve := fun _ _ _ => none }

/-- A one-unknown linear problem: the residual of x is x - [2] and the
Krylov solve returns the exact Newton step. -/
def opsLin : Ops :=
  { residual := fun x => some (vsub x [2]),
    linearSolve := fun _ _ r => some (vscale (-1) r) }

/-- A concrete owned state. -/
def stA : OwnedState := { eulerian := [1, 2], lagrangian := [3], time := 0 }

/-! ## Helper lemmas -/

theorem norm1_nonneg (x : Vec) : 0 ≤ norm1 x := by
  unfold norm1
  apply List.sum_nonneg
  intro a ha
  obtain ⟨b, _, rfl⟩ := List.mem_map.mp ha
  exact abs_nonneg b

theorem convergedCheck_eq_true_iff (cfg : Config) (rnorm0 rnorm : ℚ) :
    convergedCheck cfg rnorm0 rnorm = true ↔
      (rnorm ≤ cfg.atol ∨ rnorm ≤ cfg.rtol * rnorm0) := by
  simp [convergedCheck]

theorem dampedUpdate_ok_residual (ops : Ops) (sg : ℚ) (x : Vec) (p : ℚ) :
    ∀ (n : ℕ) (s x1 r1 : Vec), dampedUpdate ops sg x p s n = .ok x1 r1 →
      ops.residual x1 = some r1 := by
  intro n
  induction n with
  | zero =>
    intro s x1 r1 h
    rw [dampedUpdate] at h
    split at h
    · simp at h
    next r hres =>
      split at h
      · simp at h
      · simp only [UpdateResult.ok.injEq] at h
        obtain ⟨h1, h2⟩ := h
        rw [← h1, ← h2]
        exact hres
  | succ k ih =>
    intro s x1 r1 h
    rw [dampedUpdate] at h
    split at h
    · simp at h
    next r hres =>
      split at h
      · exact ih _ x1 r1 h
      · simp only [UpdateResult.ok.injEq] at h
        obtain ⟨h1, h2⟩ := h
        rw [← h1, ← h2]
        exact hres

theorem newtonLoop_count_le (cfg : Config) (ops : Ops) (rnorm0 : ℚ) :
    ∀ (fuel : ℕ) (x r : Vec), (newtonLoop cfg ops rnorm0 x r fuel).2 ≤ fuel := by
  intro fuel
  induction fuel with
  | zero =>
    intro x r
    rw [newtonLoop]
    split <;> simp
  | succ k ih =>
    intro x r
    rw [newtonLoop]
    split
    · simp
    · split
      · simp
      · split
        · simp
        · simp
        next x1 r1 hdu => simpa using Nat.succ_le_succ (ih x1 r1)

theorem newtonLoop_converged_below_tol (cfg : Config) (ops : Ops) (rnorm0 : ℚ) :
    ∀ (fuel : ℕ) (x r y : Vec), ops.residual x = some r →
      (newtonLoop cfg ops rnorm0 x r fuel).1 = .Converged y →
      ∃ ry, ops.residual y = some ry ∧
        (norm1 ry ≤ cfg.atol ∨ norm1 ry ≤ cfg.rtol * rnorm0) := by
  intro fuel
  induction fuel with
  | zero =>
    intro x r y hres h
    rw [newtonLoop] at h
    split at h
    next hc =>
      simp only [SolveOutcome.Converged.injEq] at h
      exact ⟨r, by rw [← h]; exact hres,
        (convergedCheck_eq_true_iff cfg rnorm0 (norm1 r)).mp hc⟩
    next hc => simp at h
  | succ k ih =>
    intro x r y hres h
    rw [newtonLoop] at h
    split at h
    next hc =>
      simp only [SolveOutcome.Converged.injEq] at h
      exact ⟨r, by rw [← h]; exact hres,
        (convergedCheck_eq_true_iff cfg rnorm0 (norm1 r)).mp hc⟩
    next hc =>
      split at h
      · simp at h
      next s hls =>
        split at h
        · simp at h
        · simp at h
        next x1 r1 hdu =>
          exact ih x1 r1 y (dampedUpdate_ok_residual ops cfg.safeguard x (norm1 r)
            cfg.maxDampingRetries s x1 r1 hdu) h

theorem nonlinearSolveCore_residual_some (cfg : Config) (ops : Ops) (x0 r0 : Vec)
    (h : ops.residual x0 = some r0) :
    nonlinearSolveCore cfg ops x0
      = newtonLoop cfg ops (norm1 r0) x0 r0 cfg.maxNonlinearIts := by
  unfold nonlinearSolveCore
  rw [h]

theorem nonlinearSolveCore_residual_none (cfg : Config) (ops : Ops) (x0 : Vec)
    (h : ops.residual x0 = none) :
    nonlinearSolveCore cfg ops x0 = (.NumericalInstability, 0) := by
  unfold nonlinearSolveCore
  rw [h]

theorem newtonLoop_entry_converged (cfg : Config) (ops : Ops) (rnorm0 : ℚ)
    (x r : Vec) (fuel : ℕ) (h : convergedCheck cfg rnorm0 (norm1 r) = true) :
    newtonLoop cfg ops rnorm0 x r fuel = (.Converged x, 0) := by
  cases fuel <;> rw [newtonLoop] <;> simp [h]

theorem norm1_zero_step (x : Vec) : ∀ g : Vec,
    norm1 (vsub (vsub x x) (vscale 0 g)) = 0 := by
  intro g
  simp [vsub, vscale, norm1]

theorem integrateHierarchy_not_converged (cfg : Config) (opsOf : ℚ → ℚ → Ops)
    (st : OwnedState) (t0 t1 : ℚ) (c : ℕ)
    (h : ∀ x, nonlinearSolve cfg (opsOf t0 t1) (seedComposite st) ≠ .Converged x) :
    integrateHierarchy cfg opsOf st t0 t1 c = (st, false) := by
  unfold integrateHierarchy
  cases hs : nonlinearSolve cfg (opsOf t0 t1) (seedComposite st) with
  | Converged x => exact absurd hs (h x)
  | Diverged => rfl
  | MaxIterationsReached => rfl
  | LinearSolveFailure => rfl
  | NumericalInstability => rfl

/-! ## Claim theorems: Schur identity, Jacobian frame property, NoOp solver -/

/-- C6: with zero Lagrangian markers the Lagrangian Schur action is the
identity on every input vector. -/
theorem c6_schur_identity_zero_markers (spread fluidSolve interp : Vec → Vec)
    (x : Vec) : lagrangianSchurApply 0 spread fluidSolve interp x = x := by
  simp [lagrangianSchurApply]

/-- C7: any sequence of Jacobian-action applications inside one Krylov loop
leaves the stored linearization point `d_X_current` unchanged — the final
Krylov-loop state equals the state at the start of the loop. -/
theorem c7_jacobian_preserves_linearization_point (F : Vec → Vec) (eps : ℚ)
    (st : KrylovState) (vs : List Vec) : jacobianApplySeq F eps st vs = st := by
  induction vs generalizing st with
  | nil => rfl
  | cons v vs ih => simpa [jacobianApplySeq, compositeIBJacobianApply] using ih st

/-- C9: `solveSystem` of the NoOpStaggeredStokesSolver returns false and
leaves the solver state and both vectors unchanged. -/
theorem c9_noop_solveSystem {α β : Type} (s : NoOpStaggeredStokesSolver α β)
    (x b : Vec) : s.solveSystem x b = (false, s, x, b) := rfl

/-- C10: `setPhysicalBcCoefs` forwards the boundary-condition coefficients
to the base solver and the Stokes operator only, leaving `d_fac_pc` and
`d_fac_op` unchanged, while `setVelocityPoissonSpecifications` forwards the
Poisson specifications to the base solver and to all three of `d_stokes_op`,
`d_fac_pc` and `d_fac_op`. -/
theorem c10_bc_and_specs_forwarding {α β : Type}
    (s : NoOpStaggeredStokesSolver α β) (U_bc_coefs : List β) (P_bc_coef : β)
    (U_problem_coefs : α) :
    ((s.setPhysicalBcCoefs U_bc_coefs P_bc_coef).d_fac_pc = s.d_fac_pc ∧
     (s.setPhysicalBcCoefs U_bc_coefs P_bc_coef).d_fac_op = s.d_fac_op ∧
     (s.setPhysicalBcCoefs U_bc_coefs P_bc_coef).base.physicalBcCoefs
        = some (U_bc_coefs, P_bc_coef) ∧
     (s.setPhysicalBcCoefs U_bc_coefs P_bc_coef).d_stokes_op.physicalBcCoefs
        = some (U_bc_coefs, P_bc_coef)) ∧
    ((s.setVelocityPoissonSpecifications U_problem_coefs).base.velocityPoissonSpecs
        = some U_problem_coefs ∧
     (s.setVelocityPoissonSpecifications U_problem_coefs).d_stokes_op.velocityPoissonSpecs
        = some U_problem_coefs ∧
     (s.setVelocityPoissonSpecifications U_problem_coefs).d_fac_pc.velocityPoissonSpecs
        = some U_problem_coefs ∧
     (s.setVelocityPoissonSpecifications U_problem_coefs).d_fac_op.velocityPoissonSpecs
        = some U_problem_coefs) :=
  ⟨⟨rfl, rfl, rfl, rfl⟩, rfl, rfl, rfl, rfl⟩

/-! ## Claim theorems: transactional commit, convergence, budgets -/

/-- C1: every integrateHierarchy call whose nonlinear solve ends in any
failure terminal state (LinearSolveFailure, Diverged, MaxIterationsReached
or NumericalInstability) leaves the owned Eulerian/Lagrangian state and the
simulation time exactly at their pre-call values and returns a failure
signal; only a Converged solve commits a change to the owned states. -/
theorem c1_failure_leaves_state_unchanged (cfg : Config) (opsOf : ℚ → ℚ → Ops)
    (st : OwnedState) (t0 t1 : ℚ) (c : ℕ)
    (hfail : ∀ x, nonlinearSolve cfg (opsOf t0 t1) (seedComposite st) ≠ .Converged x) :
    integrateHierarchy cfg opsOf st t0 t1 c = (st, false) :=
  integrateHierarchy_not_converged cfg opsOf st t0 t1 c hfail

/-- Witness for C1: a solve whose residual evaluation fails ends in
NumericalInstability and the owned state is returned unchanged. -/
theorem c1_failure_leaves_state_unchanged_witness :
    integrateHierarchy cfgA (fun _ _ => opsFail) stA 0 1 0 = (stA, false) := by
  apply c1_failure_leaves_state_unchanged
  intro x hx
  simp only [nonlinearSolve] at hx
  rw [nonlinearSolveCore_residual_none cfgA opsFail (seedComposite stA) rfl] at hx
  exact SolveOutcome.noConfusion hx

/-- C2 is refuted as stated: this solve terminates Converged with the
residual norm below the absolute tolerance, yet the relative form of the
tolerance test fails at the converged vector. -/
theorem c2_both_forms_counterexample :
    nonlinearSolve cfgA opsConst [0] = .Converged [0] ∧
    opsConst.residual [0] = some [1 / 2] ∧
    norm1 [1 / 2] ≤ cfgA.atol ∧
    ¬ norm1 [1 / 2] ≤ cfgA.rtol * norm1 [1 / 2] := by
  refine ⟨?_, rfl, ?_, ?_⟩
  · simp only [nonlinearSolve]
    rw [nonlinearSolveCore_residual_some cfgA opsConst [0] [1 / 2] rfl,
      newtonLoop_entry_converged]
    apply (convergedCheck_eq_true_iff _ _ _).mpr
    left
    norm_num [norm1, cfgA, abs_div, abs_one, abs_two]
  · norm_num [norm1, cfgA, abs_div, abs_one, abs_two]
  · norm_num [norm1, cfgA, abs_div, abs_one, abs_two]

/-- C2 (amended): for every solve that terminates in Converged with vector
x*, the residual at x* is below the absolute tolerance or below the relative
tolerance — the disjunction accepted by the Evaluating-state check. -/
theorem c2_converged_residual_below_tolerance (cfg : Config) (ops : Ops)
    (x0 x : Vec) (h : nonlinearSolve cfg ops x0 = .Converged x) :
    ∃ r0 r, ops.residual x0 = some r0 ∧ ops.residual x = some r ∧
      (norm1 r ≤ cfg.atol ∨ norm1 r ≤ cfg.rtol * norm1 r0) := by
  simp only [nonlinearSolve] at h
  cases hres : ops.residual x0 with
  | none =>
    rw [nonlinearSolveCore_residual_none cfg ops x0 hres] at h
    exact absurd h (by simp)
  | some r0 =>
    rw [nonlinearSolveCore_residual_some cfg ops x0 r0 hres] at h
    obtain ⟨ry, hry, hle⟩ := newtonLoop_converged_below_tol cfg ops (norm1 r0)
      cfg.maxNonlinearIts x0 r0 x hres h
    exact ⟨r0, ry, rfl, hry, hle⟩

/-- Witness for the amended C2 at a concrete converged solve. -/
theorem c2_converged_residual_below_tolerance_witness :
    norm1 [(1:ℚ) / 2] ≤ cfgA.atol ∨ norm1 [(1:ℚ) / 2] ≤ cfgA.rtol * norm1 [(1:ℚ) / 2] := by
  have hconv : nonlinearSolve cfgA opsConst [0] = .Converged [0] := by
    simp only [nonlinearSolve]
    rw [nonlinearSolveCore_residual_some cfgA opsConst [0] [1 / 2] rfl,
      newtonLoop_entry_converged]
    apply (convergedCheck_eq_true_iff _ _ _).mpr
    left
    norm_num [norm1, cfgA, abs_div, abs_one, abs_two]
  obtain ⟨r0, r, h1, h2, h3⟩ :=
    c2_converged_residual_below_tolerance cfgA opsConst [0] [0] hconv
  have e0 : ([(1:ℚ) / 2] : Vec) = r0 := Option.some.inj h1
  have e : ([(1:ℚ) / 2] : Vec) = r := Option.some.inj h2
  rw [← e0, ← e] at h3
  exact h3

/-- C3: the number of executed nonlinear iterations never exceeds the
configured maximum, and with the maximum configured to 0 on a problem whose
initial residual is above both tolerances the solve terminates in
MaxIterationsReached and integrateHierarchy leaves the owned state
unmodified. -/
theorem c3_iteration_budget (cfg : Config) (opsOf : ℚ → ℚ → Ops)
    (st : OwnedState) (t0 t1 : ℚ) (c : ℕ) :
    (∀ x0, (nonlinearSolveCore cfg (opsOf t0 t1) x0).2 ≤ cfg.maxNonlinearIts) ∧
    (cfg.maxNonlinearIts = 0 →
      ∀ r0, (opsOf t0 t1).residual (seedComposite st) = some r0 →
        ¬ norm1 r0 ≤ cfg.atol → ¬ norm1 r0 ≤ cfg.rtol * norm1 r0 →
        nonlinearSolve cfg (opsOf t0 t1) (seedComposite st) = .MaxIterationsReached ∧
        integrateHierarchy cfg opsOf st t0 t1 c = (st, false)) := by
  constructor
  · intro x0
    cases hres : (opsOf t0 t1).residual x0 with
    | none =>
      rw [nonlinearSolveCore_residual_none _ _ _ hres]
      exact Nat.zero_le _
    | some r0 =>
      rw [nonlinearSolveCore_residual_some _ _ _ _ hres]
      exact newtonLoop_count_le cfg (opsOf t0 t1) (norm1 r0) cfg.maxNonlinearIts x0 r0
  · intro h0 r0 hres hna hnr
    have hc : convergedCheck cfg (norm1 r0) (norm1 r0) = false := by
      rw [Bool.eq_false_iff]
      intro hcc
      rcases (convergedCheck_eq_true_iff _ _ _).mp hcc with h | h
      · exact hna h
      · exact hnr h
    have hsolve : nonlinearSolve cfg (opsOf t0 t1) (seedComposite st)
        = .MaxIterationsReached := by
      simp only [nonlinearSolve]
      rw [nonlinearSolveCore_residual_some _ _ _ _ hres, h0, newtonLoop, hc]
      simp
    refine ⟨hsolve, integrateHierarchy_not_converged cfg opsOf st t0 t1 c ?_⟩
    intro x hx
    rw [hsolve] at hx
    exact SolveOutcome.noConfusion hx

/-- Witness for C3: with zero nonlinear iterations allowed and an initial
residual above both tolerances, the solve reports MaxIterationsReached and
the owned state is unchanged. -/
theorem c3_iteration_budget_witness :
    nonlinearSolve cfgZero opsOne (seedComposite stA) = .MaxIterationsReached ∧
    integrateHierarchy cfgZero (fun _ _ => opsOne) stA 0 1 0 = (stA, false) :=
  (c3_iteration_budget cfgZero (fun _ _ => opsOne) stA 0 1 0).2 rfl [1] rfl
    (by norm_num [norm1, cfgZero, abs_one]) (by norm_num [norm1, cfgZero, abs_one])

/-- C4: a non-finite sampled value detected during residual evaluation is
fatal — a failed initial evaluation makes the whole solve terminate with
NumericalInstability after zero iterations, and a failed evaluation during
the update phase aborts immediately with no damping retry, regardless of the
remaining retry budget. -/
theorem c4_numerical_instability_fatal (cfg : Config) (ops : Ops) (x0 : Vec) :
    (ops.residual x0 = none →
      nonlinearSolveCore cfg ops x0 = (.NumericalInstability, 0)) ∧
    (∀ sg x p s n, ops.residual (vadd x s) = none →
      dampedUpdate ops sg x p s n = .instab) := by
  constructor
  · exact nonlinearSolveCore_residual_none cfg ops x0
  · intro sg x p s n h
    cases n with
    | zero => rw [dampedUpdate, h]
    | succ k => rw [dampedUpdate, h]

/-- Witness for C4 at concrete failing evaluations. -/
theorem c4_numerical_instability_fatal_witness :
    nonlinearSolveCore cfgA opsFail [0] = (.NumericalInstability, 0) ∧
    dampedUpdate opsFail 2 [0] 1 [1] 3 = .instab :=
  ⟨(c4_numerical_instability_fatal cfgA opsFail [0]).1 rfl,
   (c4_numerical_instability_fatal cfgA opsFail [0]).2 2 [0] 1 [1] 3 rfl⟩

/-- C5: a zero-length step (new_time = current_time) built from the
implicit-step residual leaves the owned Eulerian and Lagrangian states
bit-identical to their pre-call values, and the solve reports success. -/
theorem c5_zero_length_step_identity (cfg : Config) (G : ℚ → ℚ → Vec → Vec)
    (ls : Bool → Vec → Vec → Option Vec) (st : OwnedState) (t : ℚ) (c : ℕ)
    (hatol : 0 ≤ cfg.atol) :
    (integrateHierarchy cfg (stepOps (seedComposite st) G ls) st t t c).1.eulerian
        = st.eulerian ∧
    (integrateHierarchy cfg (stepOps (seedComposite st) G ls) st t t c).1.lagrangian
        = st.lagrangian ∧
    (integrateHierarchy cfg (stepOps (seedComposite st) G ls) st t t c).2 = true := by
  have hres : (stepOps (seedComposite st) G ls t t).residual (seedComposite st)
      = some (vsub (vsub (seedComposite st) (seedComposite st))
          (vscale (t - t) (G t t (seedComposite st)))) := rfl
  have hnorm : norm1 (vsub (vsub (seedComposite st) (seedComposite st))
      (vscale (t - t) (G t t (seedComposite st)))) = 0 := by
    rw [sub_self]
    exact norm1_zero_step (seedComposite st) (G t t (seedComposite st))
  have hconv : nonlinearSolve cfg (stepOps (seedComposite st) G ls t t)
      (seedComposite st) = .Converged (seedComposite st) := by
    simp only [nonlinearSolve]
    rw [nonlinearSolveCore_residual_some _ _ _ _ hres, newtonLoop_entry_converged]
    apply (convergedCheck_eq_true_iff _ _ _).mpr
    left
    rw [hnorm]
    exact hatol
  have key : integrateHierarchy cfg (stepOps (seedComposite st) G ls) st t t c
      = ({ eulerian := st.eulerian, lagrangian := st.lagrangian, time := t }, true) := by
    unfold integrateHierarchy
    rw [hconv]
    simp [seedComposite, List.take_left, List.drop_left]
  rw [key]
  exact ⟨rfl, rfl, rfl⟩

/-- Witness for C5 at a concrete state and configuration. -/
theorem c5_zero_length_step_identity_witness :
    (integrateHierarchy cfgA (stepOps (seedComposite stA) (fun _ _ v => v)
        (fun _ _ _ => none)) stA 0 0 0).1.eulerian = stA.eulerian ∧
    (integrateHierarchy cfgA (stepOps (seedComposite stA) (fun _ _ v => v)
        (fun _ _ _ => none)) stA 0 0 0).1.lagrangian = stA.lagrangian ∧
    (integrateHierarchy cfgA (stepOps (seedComposite stA) (fun _ _ v => v)
        (fun _ _ _ => none)) stA 0 0 0).2 = true :=
  c5_zero_length_step_identity cfgA (fun _ _ v => v) (fun _ _ _ => none) stA 0 0
    (by norm_num [cfgA])

/-- C8: for a purely linear problem — the initial residual is above both
tolerances, the first Krylov solve returns a step after which the residual
vanishes — and a valid configuration, the solver converges in exactly one
nonlinear iteration. -/
theorem c8_linear_problem_one_iteration (cfg : Config) (ops : Ops)
    (x0 r0 s r1 : Vec)
    (hr0 : ops.residual x0 = some r0)
    (hna : ¬ norm1 r0 ≤ cfg.atol)
    (hnr : ¬ norm1 r0 ≤ cfg.rtol * norm1 r0)
    (hfuel : 1 ≤ cfg.maxNonlinearIts)
    (hls : ops.linearSolve false x0 r0 = some s)
    (hr1 : ops.residual (vadd x0 s) = some r1)
    (hz : norm1 r1 = 0)
    (hatol : 0 ≤ cfg.atol)
    (hsg : 0 ≤ cfg.safeguard * norm1 r0) :
    nonlinearSolveCore cfg ops x0 = (.Converged (vadd x0 s), 1) := by
  obtain ⟨k, hk⟩ : ∃ k, cfg.maxNonlinearIts = k + 1 :=
    ⟨cfg.maxNonlinearIts - 1, by omega⟩
  have hc0 : convergedCheck cfg (norm1 r0) (norm1 r0) = false := by
    rw [Bool.eq_false_iff]
    intro hcc
    rcases (convergedCheck_eq_true_iff _ _ _).mp hcc with h | h
    · exact hna h
    · exact hnr h
  have hretry : linearSolveWithRetry ops x0 r0 = some s := by
    unfold linearSolveWithRetry
    rw [hls]
  have hnl : ¬ cfg.safeguard * norm1 r0 < norm1 r1 := by
    rw [hz]
    exact not_lt.mpr hsg
  have hdu : dampedUpdate ops cfg.safeguard x0 (norm1 r0) s cfg.maxDampingRetries
      = .ok (vadd x0 s) r1 := by
    cases cfg.maxDampingRetries with
    | zero =>
      rw [dampedUpdate]
      simp only [hr1]
      rw [if_neg hnl]
    | succ m =>
      rw [dampedUpdate]
      simp only [hr1]
      rw [if_neg hnl]
  have hdone : newtonLoop cfg ops (norm1 r0) (vadd x0 s) r1 k
      = (.Converged (vadd x0 s), 0) := by
    apply newtonLoop_entry_converged
    apply (convergedCheck_eq_true_iff _ _ _).mpr
    left
    rw [hz]
    exact hatol
  rw [nonlinearSolveCore_residual_some cfg ops x0 r0 hr0, hk, newtonLoop]
  rw [hc0]
  simp only [Bool.false_eq_true, if_false]
  rw [hretry]
  simp only [hdu, hdone]

/-- Witness for C8 on the concrete one-unknown linear problem. -/
theorem c8_linear_problem_one_iteration_witness :
    nonlinearSolveCore cfgA opsLin [0] = (.Converged [2], 1) := by
  have h := c8_linear_problem_one_iteration cfgA opsLin [0] [-2] [2] [0]
    (by norm_num [opsLin, vsub]) (by norm_num [norm1, cfgA, abs_neg, abs_two])
    (by norm_num [norm1, cfgA, abs_neg, abs_two]) (by norm_num [cfgA])
    (by norm_num [opsLin, vscale]) (by norm_num [opsLin, vadd, vsub])
    (by norm_num [norm1]) (by norm_num [cfgA]) (by norm_num [norm1, cfgA, abs_neg, abs_two])
  have hv : vadd [0] ([2] : Vec) = [2] := by norm_num [vadd]
  rw [hv] at h
  exact h

end IBAMR
